import Mathlib

/-!
Shallow embedding of the table-reconstruction and numeric-normalization
pipeline of `shared/skills/fin-extract/scripts/extract_tables.py`.

Modelling conventions, stated once:
* Python strings are modelled as `String` / `List Char`; cells that may be
  `None` are `Option String`.
* `str.strip()` strips the Python whitespace set; we model the whitespace
  characters that can actually occur in cell text
  (space, tab, newline, carriage return, vertical tab, form feed and the
  no-break space U+00A0).  Regex classes `\s` and `\d` are modelled over the
  same alphabet, with `\d` restricted to the ASCII digits `0`-`9`.
* Python `float` ratios (the `> 0.7` and `> 0.5` threshold tests) are
  modelled as exact comparisons on naturals (`10 * a > 7 * n`,
  `2 * a < n`); for the table sizes involved the double-precision
  computation in the source agrees with the exact rational comparison,
  including the boundary cases `7/10` and `1/2`, which are exactly
  representable resp. rounded identically on both sides.
* `decimal.Decimal` values are modelled as `ℚ`; `Decimal` parsing is
  modelled for the plain `sign digits [. digits]` forms, which covers every
  string `normalize_number_string` produces (the only strings `to_decimal`
  receives in the pipeline).
* Geometric coordinates (pdfplumber floats) are modelled as `ℚ`.
-/

namespace FinExtract

/-! ### Character classes and Python string helpers -/

/-- The whitespace characters stripped by Python `str.strip()` that can occur
in extracted cell text (ASCII whitespace plus the no-break space). -/
def isSpaceChar (c : Char) : Bool :=
  c == ' ' || c == '\t' || c == '\n' || c == '\x0d' ||
  c == '\x0b' || c == '\x0c' || c == '\u00A0'

/-- ASCII digit, the model of regex `\d` on the cell alphabet. -/
def isDigitChar (c : Char) : Bool :=
  '0' ≤ c && c ≤ '9'

/-- Remove a trailing run of characters satisfying `p` (Python `rstrip`). -/
def dropTrailing (p : Char → Bool) (l : List Char) : List Char :=
  (l.reverse.dropWhile p).reverse

/-- Python `str.strip()`: remove leading and trailing whitespace. -/
def pstrip (l : List Char) : List Char :=
  dropTrailing isSpaceChar (l.dropWhile isSpaceChar)

/-- Numeric value of a list of ASCII digits (Python `int(p)` on a digit
string). -/
def natOfDigits (l : List Char) : ℕ :=
  l.foldl (fun a c => a * 10 + (c.toNat - 48)) 0

/-! ### Currency stripping

`CURRENCY_PREFIX = re.compile(r"^\s*(?:Ps\.?\s*|MXN\s*|USD\s*|US[$]\s*|[$]\s*)")`
applied with `.sub("", s)`; anchored at `^`, so at most the one leading match
is removed, and nothing is removed when no alternative matches. -/

/-- If `tok` is a leading segment of `l`, return the remainder. -/
def dropLeadingSeg : List Char → List Char → Option (List Char)
  | [], l => some l
  | _, [] => none
  | p :: ps, c :: cs => if c = p then dropLeadingSeg ps cs else none

/-- The `Ps\.?\s*` alternative. -/
def afterPs (l : List Char) : Option (List Char) :=
  match dropLeadingSeg ['P', 's'] l with
  | none => none
  | some r =>
      let r' := match r with
        | '.' :: t => t
        | _ => r
      some (r'.dropWhile isSpaceChar)

/-- One plain-token alternative followed by `\s*`. -/
def afterTok (tok : List Char) (l : List Char) : Option (List Char) :=
  (dropLeadingSeg tok l).map (·.dropWhile isSpaceChar)

/-- Model of `CURRENCY_PREFIX.sub("", s)`: drop one leading currency marker (with the
whitespace around it) if present, otherwise leave the string unchanged. -/
def stripCurrency (l : List Char) : List Char :=
  let ws := l.dropWhile isSpaceChar
  match afterPs ws with
  | some r => r
  | none =>
    match afterTok ['M', 'X', 'N'] ws with
    | some r => r
    | none =>
      match afterTok ['U', 'S', 'D'] ws with
      | some r => r
      | none =>
        match afterTok ['U', 'S', '$'] ws with
        | some r => r
        | none =>
          match afterTok ['$'] ws with
          | some r => r
          | none => l

/-! ### Parenthetical negatives

`PARENTHETICAL_NEG = re.compile(r"^\s*\(\s*([\d,.\s]+)\s*\)\s*$")`; on a
match, the code uses `group(1).strip()`.  Since `\s` is contained in the
bracketed class, the greedy group together with the following `\s*` consume
exactly the maximal run of class characters after `(`. -/

/-- Characters allowed inside the parenthetical group: `[\d,.\s]`. -/
def isParenInner (c : Char) : Bool :=
  isDigitChar c || c == ',' || c == '.' || isSpaceChar c

/-- Match `PARENTHETICAL_NEG` against the whole string; return the stripped
group on success. -/
def parenExtract (l : List Char) : Option (List Char) :=
  match l.dropWhile isSpaceChar with
  | '(' :: rest =>
      let inner := rest.takeWhile isParenInner
      let rest2 := rest.dropWhile isParenInner
      match rest2 with
      | ')' :: tail =>
          if inner ≠ [] && tail.all isSpaceChar then some (pstrip inner) else none
      | _ => none
  | _ => none

/-! ### The number normalizer -/

/-- Unicode minus / en-dash to ASCII minus:
`s.replace("−", "-").replace("–", "-")`. -/
def dashReplace (l : List Char) : List Char :=
  l.map fun c => if c = '−' || c = '–' then '-' else c

/-- What may follow the leading digit run in `^\d+\.?\d*$`: nothing, or a
point and digits. -/
def optFracTail : List Char → Bool
  | [] => true
  | c :: t => c == '.' && t.all isDigitChar

/-- The final shape guard `re.match(r"^\d+\.?\d*$", s)`: one or more digits,
an optional point, zero or more digits. -/
def matchNumShape (l : List Char) : Bool :=
  decide (l.takeWhile isDigitChar ≠ []) && optFracTail (l.dropWhile isDigitChar)

/-- The two separator conventions returned by `detect_number_format`:
`"en"` (comma thousands, point decimal) and `"es"` (point thousands, comma
decimal). -/
inductive NumFmt where
  | en
  | es
deriving DecidableEq, Repr

/-- The tail of `normalize_number_string` after the sign has been settled:
delete spaces and no-break spaces; the lone-dash test of the source
(unreachable after the digit-free rejection, kept for fidelity); apply the
separator convention; final shape guard; re-apply the sign. -/
def normTail2 (neg : Bool) (s4 : List Char) (fmt : NumFmt) : Option String :=
  let s5 := s4.filter fun c => c != ' ' && c != '\u00A0'
  if s5 = ['-'] || s5 = ['\u2014'] || s5 = ['\u2013'] then some "0" else
  let s6 :=
    match fmt with
    | .es => (s5.filter fun c => c != '.').map fun c => if c = ',' then '.' else c
    | .en => s5.filter fun c => c != ','
  if matchNumShape s6 then
    some ⟨if neg then '-' :: s6 else s6⟩
  else none

/-- The leading-minus step of `normalize_number_string`: a leading `-`
(after dash normalization) sets the negative flag and is stripped. -/
def normTail (neg : Bool) (s3 : List Char) (fmt : NumFmt) : Option String :=
  match s3 with
  | '-' :: t => normTail2 true (pstrip t) fmt
  | _ => normTail2 neg s3 fmt

/-- Model of `normalize_number_string(raw, fmt)`: normalize a raw cell value to a
clean number string, or `none` if the cell is not a number.  Mirrors the
source statement by statement: strip; reject digit-free strings; strip a
currency marker; unwrap a parenthetical negative (setting the negative
flag); normalize Unicode dash variants; then `normTail`/`normTail2`. -/
def normalize_number_string (raw : Option String) (fmt : NumFmt) : Option String :=
  match raw with
  | none => none
  | some str0 =>
    let s0 := pstrip str0.data
    if s0 = [] || !(s0.any isDigitChar) then none else
    let s1 := pstrip (stripCurrency s0)
    match parenExtract s1 with
    | some inner => normTail true (dashReplace inner) fmt
    | none => normTail false (dashReplace s1) fmt

/-! ### Claim-side number shapes

These two definitions transcribe the spec's "canonical decimal string"
wording, not the code: an optional leading `-`, one or more digits, then an
optional decimal point — with at least one fractional digit required after
the point in the strict reading, and zero or more allowed in the loose
reading. -/

/-- Strip one leading minus sign. -/
def dropMinus (l : List Char) : List Char :=
  if l.head? = some '-' then l.tail else l

/-- Strict fractional tail: nothing, or a point followed by at least one
digit. -/
def strictFrac : List Char → Bool
  | [] => true
  | c :: t => c == '.' && decide (t ≠ []) && t.all isDigitChar

/-- The spec shape read strictly: optional `-`, digits, and an optional `.`
carrying fractional digits. -/
def strictNumShape (l : List Char) : Bool :=
  let m := dropMinus l
  decide (m.takeWhile isDigitChar ≠ []) && strictFrac (m.dropWhile isDigitChar)

/-- The spec shape read loosely: optional `-`, digits, optional `.`, zero
or more fractional digits (no separators, no currency marks either way). -/
def looseNumShape (l : List Char) : Bool :=
  let m := dropMinus l
  decide (m.takeWhile isDigitChar ≠ []) && optFracTail (m.dropWhile isDigitChar)

/-- The characters a shaped number string can contain (used by the
idempotence development): digits, the decimal point and the minus sign. -/
def charOk (c : Char) : Bool :=
  isDigitChar c || c == '.' || c == '-'

/-! ### Exact decimal conversion and row validation -/

/-- Value of `intPart.fracPart` as an exact rational. -/
def decOfParts (ip fp : List Char) : ℚ :=
  (natOfDigits ip : ℚ) + (natOfDigits fp : ℚ) / (10 : ℚ) ^ fp.length

/-- Parse the unsigned part of a decimal literal and attach the sign. -/
def decFinish (sgn : Bool) (mag : List Char) : Option ℚ :=
  let ip := mag.takeWhile isDigitChar
  match mag.dropWhile isDigitChar with
  | [] =>
      if ip = [] then none
      else some (if sgn then -(natOfDigits ip : ℚ) else (natOfDigits ip : ℚ))
  | '.' :: t =>
      if t.all isDigitChar && (decide (ip ≠ []) || decide (t ≠ [])) then
        some (if sgn then -decOfParts ip t else decOfParts ip t)
      else none
  | _ => none

/-- Model of `to_decimal(s)`: convert a normalized number string to an exact decimal
(`Decimal` in the source, `ℚ` here), `none` on failure.  `Decimal` parsing is
modelled for the `sign digits [. digits]` forms produced by
`normalize_number_string`, the only strings this function receives. -/
def to_decimal (s : Option String) : Option ℚ :=
  match s with
  | none => none
  | some str0 =>
    match pstrip str0.data with
    | '-' :: t => decFinish true t
    | '+' :: t => decFinish false t
    | l => decFinish false l

/-- The numeric cells of a row: each cell normalized and converted to an
exact decimal, failures dropped (the `nums` list of `validate_row_totals`,
keeping only the decimal component, the only one the comparison uses). -/
def numsOf (row : List (Option String)) (fmt : NumFmt) : List ℚ :=
  row.filterMap fun cell => to_decimal (normalize_number_string cell fmt)

/-- Per-row outcome of `validate_row_totals`. -/
inductive RowStatus where
  | skipped
  | passed
  | mismatch (diff : ℚ)
deriving DecidableEq, Repr

/-- The per-row body of `validate_row_totals`: fewer than three numeric
cells is `skipped`; otherwise the last numeric cell is compared with the
exact sum of the preceding ones, a failure carrying
`abs(part_sum - last_val)`. -/
def validateRow (row : List (Option String)) (fmt : NumFmt) : RowStatus :=
  let ds := numsOf row fmt
  if ds.length < 3 then .skipped
  else
    let lastVal := ds.getLastD 0
    let partSum := ds.dropLast.sum
    if partSum = lastVal then .passed
    else .mismatch |partSum - lastVal|

/-- Model of `validate_row_totals(rows, fmt)`: one result per row (the row index and
message strings of the source dictionaries carry no further information). -/
def validate_row_totals (rows : List (List (Option String))) (fmt : NumFmt) :
    List RowStatus :=
  rows.map (validateRow · fmt)

/-! ### Number-format detection -/

/-- The cell cleaning of `detect_number_format`: strip a currency marker,
strip, delete `[()−–-]`, strip. -/
def cleanCell (s : String) : List Char :=
  pstrip ((pstrip (stripCurrency s.data)).filter
    fun c => !(c == '(' || c == ')' || c == '−' || c == '–' || c == '-'))

/-- Model of `re.search(r"\d,\d{3}\.", s)`: a digit, a comma, three digits and a
point occur consecutively somewhere in `s`. -/
def hasEnGroup : List Char → Bool
  | a :: b :: c :: d :: e :: f :: rest =>
      (isDigitChar a && b == ',' && isDigitChar c && isDigitChar d &&
        isDigitChar e && f == '.') ||
      hasEnGroup (b :: c :: d :: e :: f :: rest)
  | _ => false

/-- Model of `re.search(r"\d\.\d{3},", s)`. -/
def hasEsGroup : List Char → Bool
  | a :: b :: c :: d :: e :: f :: rest =>
      (isDigitChar a && b == '.' && isDigitChar c && isDigitChar d &&
        isDigitChar e && f == ',') ||
      hasEsGroup (b :: c :: d :: e :: f :: rest)
  | _ => false

/-- Model of `re.search(r"\d,\d{3}$", s)`: the string ends in a digit, a comma and
exactly three digits. -/
def endsEnTail (l : List Char) : Bool :=
  match l.reverse with
  | c1 :: c2 :: c3 :: c4 :: c5 :: _ =>
      isDigitChar c1 && isDigitChar c2 && isDigitChar c3 && c4 == ',' &&
        isDigitChar c5
  | _ => false

/-- Model of `re.search(r"\d\.\d{3}$", s)`. -/
def endsEsTail (l : List Char) : Bool :=
  match l.reverse with
  | c1 :: c2 :: c3 :: c4 :: c5 :: _ =>
      isDigitChar c1 && isDigitChar c2 && isDigitChar c3 && c4 == '.' &&
        isDigitChar c5
  | _ => false

/-- Evidence contributed by one cell, as an `(en, es)` increment pair,
following the `if`/`elif` cascade of the source. -/
def cellEvidence (cell : Option String) : ℕ × ℕ :=
  match cell with
  | none => (0, 0)
  | some s =>
    let cl := cleanCell s
    if hasEnGroup cl then (1, 0)
    else if hasEsGroup cl then (0, 1)
    else if endsEnTail cl && !(cl.contains '.') then (1, 0)
    else if endsEsTail cl && !(cl.contains ',') then (0, 1)
    else (0, 0)

/-- Total comma-thousands evidence over the cell pool. -/
def enEvidence (cells : List (Option String)) : ℕ :=
  (cells.map fun c => (cellEvidence c).1).sum

/-- Total period-thousands evidence over the cell pool. -/
def esEvidence (cells : List (Option String)) : ℕ :=
  (cells.map fun c => (cellEvidence c).2).sum

/-- Model of `detect_number_format(cells)`: majority vote, `"es"` only on strictly
more period-thousands evidence, `"en"` otherwise (ties and no evidence
included). -/
def detect_number_format (cells : List (Option String)) : NumFmt :=
  if esEvidence cells > enEvidence cells then .es else .en

/-! ### RGB artifact detection -/

/-- The separator class of `re.split(r"[,\s]+", s)`. -/
def isSepChar (c : Char) : Bool :=
  c == ',' || isSpaceChar c

/-- Accumulator-style splitting of a string into its maximal runs of
non-separator characters: exactly the non-empty parts that
`re.split(r"[,\s]+", s)` yields (`cur` holds the current run, reversed). -/
def tokensAux (cur : List Char) : List Char → List (List Char)
  | [] => if cur = [] then [] else [cur.reverse]
  | c :: cs =>
      if isSepChar c then
        if cur = [] then tokensAux [] cs else cur.reverse :: tokensAux [] cs
      else tokensAux (c :: cur) cs

/-- The comma/whitespace-separated tokens of a string. -/
def tokensOf (l : List Char) : List (List Char) :=
  tokensAux [] l

/-- Model of `p.isascii() and p.isdigit() and 0 <= int(p) <= 255` for a non-empty
token `p` (the lower bound is vacuous on a digit string). -/
def smallTok (t : List Char) : Bool :=
  t.all isDigitChar && natOfDigits t ≤ 255

/-- Model of `is_rgb_artifact(cell)`: `None` and blank cells count as artifacts;
otherwise the cell is stripped, trailing commas removed, split on
commas/whitespace, and every token must be a small ASCII integer. -/
def is_rgb_artifact (cell : Option String) : Bool :=
  match cell with
  | none => true
  | some s =>
    let t := pstrip (dropTrailing (fun c => c == ',') (pstrip s.data))
    if t = [] then true
    else (tokensOf t).all smallTok

/-! ### Artifact-column stripping -/

/-- Cell at column `i` of a row, `None` when the row is shorter
(`row[col_idx] if col_idx < len(row) else None`). -/
def cellAt (row : List (Option String)) (i : ℕ) : Option String :=
  row.getD i none

/-- The column `i` values of a table. -/
def colCells (t : List (List (Option String))) (i : ℕ) : List (Option String) :=
  t.map fun row => cellAt row i

/-- A cell counted as non-empty by the column scans:
`v is not None and str(v).strip()`. -/
def cellNonBlank (v : Option String) : Bool :=
  match v with
  | none => false
  | some s => decide (pstrip s.data ≠ [])

/-- The non-empty cells of column `i`. -/
def nonEmptyCol (t : List (List (Option String))) (i : ℕ) : List (Option String) :=
  (colCells t i).filter cellNonBlank

/-- A column the stripping loop passes over: either it has no non-empty
cell (`continue`), or strictly more than 70% of its non-empty cells are RGB
artifacts (`artifact_count / len(non_empty) > 0.7`, exact form
`10 * artifact_count > 7 * len(non_empty)`). -/
def stripColOk (t : List (List (Option String))) (i : ℕ) : Bool :=
  let ne := nonEmptyCol t i
  decide (ne = []) || decide (10 * ne.countP is_rgb_artifact > 7 * ne.length)

/-- Widest row length of the table (`max(len(row) for row in table)`,
`0` for the empty table). -/
def maxCols (t : List (List (Option String))) : ℕ :=
  t.foldr (fun r m => max r.length m) 0

/-- The column loop of `detect_artifact_columns`: count passing columns,
stop at the first failure. -/
def stripLoop (t : List (List (Option String))) : List ℕ → ℕ
  | [] => 0
  | i :: rest => if stripColOk t i then 1 + stripLoop t rest else 0

/-- Model of `detect_artifact_columns(table)`: the number of leading columns to
strip. -/
def detect_artifact_columns (t : List (List (Option String))) : ℕ :=
  if t = [] then 0 else stripLoop t (List.range (maxCols t))

/-! ### Continuation columns and merging -/

/-- The body of `FINANCIAL_CELL = re.compile(r"^[\s($]*\d[\d,.\s]*[)%]?$")`
on a non-empty string. -/
def finMatch (l : List Char) : Bool :=
  match l.dropWhile (fun c => isSpaceChar c || c == '(' || c == '$') with
  | [] => false
  | c :: rest =>
      isDigitChar c &&
        (match rest.dropWhile
            (fun c => isDigitChar c || c == ',' || c == '.' || isSpaceChar c) with
         | [] => true
         | [x] => x == ')' || x == '%'
         | _ => false)

/-- Model of `is_financial_cell(cell)`. -/
def is_financial_cell (cell : Option String) : Bool :=
  match cell with
  | none => false
  | some s =>
    let l := pstrip s.data
    if l = [] then false else finMatch l

/-- Column `i` as the stripped strings the continuation scan builds
(`str(row[i]).strip()` with `""` for missing/`None` cells). -/
def colStrs (t : List (List (Option String))) (i : ℕ) : List (List Char) :=
  t.map fun row =>
    match cellAt row i with
    | none => []
    | some s => pstrip s.data

/-- The merge condition of `detect_continuation_columns` for column `i`:
some non-empty cell, no financial-looking cell, and
`1 - len(non_empty)/len(col_values) > 0.5` (exact form
`2 * len(non_empty) < len(col_values)`). -/
def contColOk (t : List (List (Option String))) (i : ℕ) : Bool :=
  let vals := colStrs t i
  let ne := vals.filter fun v => decide (v ≠ [])
  decide (ne ≠ []) && ne.countP finMatch == 0 && decide (2 * ne.length < vals.length)

/-- Model of `detect_continuation_columns(table)`: the set of column indices to merge
into the preceding column, as an increasing list (the source iterates
`range(1, max_cols)` and later consumes the set through `sorted`). -/
def detect_continuation_columns (t : List (List (Option String))) : List ℕ :=
  (List.range (maxCols t)).filter fun i => decide (1 ≤ i) && contColOk t i

/-- ASCII model of `str.isalpha()` on one character. -/
def isAlphaChar (c : Char) : Bool :=
  ('a' ≤ c && c ≤ 'z') || ('A' ≤ c && c ≤ 'Z')

/-- ASCII model of `str.islower()` on one character. -/
def isLowerChar (c : Char) : Bool :=
  'a' ≤ c && c ≤ 'z'

/-- The `while target in merge_cols and target > 0: target -= 1` loop. -/
def mergeTarget (mc : List ℕ) : ℕ → ℕ
  | 0 => 0
  | t + 1 => if (t + 1) ∈ mc then mergeTarget mc t else t + 1

/-- One iteration of the inner loop of `merge_columns`: fold the content of
column `i` into its target column and blank column `i`. -/
def mergeRowStep (mc : List ℕ) (row : List (Option String)) (i : ℕ) :
    List (Option String) :=
  if i ≥ row.length || i < 1 then row
  else
    let tgt := mergeTarget mc (i - 1)
    let curr : List Char :=
      match cellAt row tgt with
      | none => []
      | some s => pstrip s.data
    let addn : List Char :=
      match cellAt row i with
      | none => []
      | some s => pstrip s.data
    let row1 :=
      if curr ≠ [] ∧ addn ≠ [] then
        if isAlphaChar (curr.getLastD ' ') ∧ isLowerChar (addn.headD ' ') then
          row.set tgt (some ⟨curr ++ addn⟩)
        else
          row.set tgt (some ⟨curr ++ ' ' :: addn⟩)
      else if addn ≠ [] then row.set tgt (some ⟨addn⟩)
      else row
    row1.set i (some "")

/-- Model of `merge_columns(table, merge_cols)` with `merge_cols` already sorted
increasingly: per row, fold every merge column into its target, then drop
the merge columns. -/
def merge_columns (t : List (List (Option String))) (mc : List ℕ) :
    List (List (Option String)) :=
  if mc = [] then t
  else
    t.map fun row =>
      let nr := mc.foldl (mergeRowStep mc) row
      (List.range nr.length).filterMap fun j =>
        if j ∈ mc then none else some (cellAt nr j)

/-- A row with at least one non-blank cell (the `non_empty` test of the
empty-row removal). -/
def rowNonBlank (row : List (Option String)) : Bool :=
  row.any cellNonBlank

/-- Model of `clean_presentation_artifacts(table)`: strip leading artifact columns,
merge continuation columns, drop empty rows. -/
def clean_presentation_artifacts (t : List (List (Option String))) :
    List (List (Option String)) :=
  if t = [] then t
  else
    let k := detect_artifact_columns t
    let t1 := if k > 0 then t.map (List.drop k) else t
    let mc := detect_continuation_columns t1
    let t2 := if mc = [] then t1 else merge_columns t1 mc
    t2.filter rowNonBlank

/-! ### Label forward-fill and footnote classification -/

/-- The statement loop of `forward_fill_labels`, threading `last_label`:
a row whose first cell is a non-blank string refreshes the label and is kept
as is; otherwise a non-empty row receives the label in column 0 when one is
available. -/
def fflAux (lastLabel : Option String) :
    List (List (Option String)) → List (List (Option String))
  | [] => []
  | row :: rest =>
    match row with
    | some s :: _ =>
        if pstrip s.data ≠ [] then row :: fflAux (some s) rest
        else
          match lastLabel with
          | some v => row.set 0 (some v) :: fflAux (some v) rest
          | none => row :: fflAux none rest
    | none :: _ =>
        match lastLabel with
        | some v => row.set 0 (some v) :: fflAux (some v) rest
        | none => row :: fflAux none rest
    | [] => row :: fflAux lastLabel rest

/-- Model of `forward_fill_labels(table)`. -/
def forward_fill_labels (t : List (List (Option String))) :
    List (List (Option String)) :=
  fflAux none t

/-- Model of `text_cells`: the cell strings of a row whose stripped text is
non-empty, kept unstripped. -/
def textCells (row : List (Option String)) : List String :=
  row.filterMap fun c =>
    match c with
    | some s => if pstrip s.data ≠ [] then some s else none
    | none => none

/-- Trailing part of the footnote marker: `\s*[\)\.]` follows. -/
def bracketDot (r : List Char) : Bool :=
  match r.dropWhile isSpaceChar with
  | c :: _ => c == ')' || c == '.'
  | [] => false

/-- First alternative of `FOOTNOTE_PATTERN`: `\d{1,2}\s*[\)\.]`, two digits
attempted before one. -/
def footAltNum (w : List Char) : Bool :=
  match w with
  | a :: rest =>
      isDigitChar a &&
        ((match rest with
          | b :: r => (isDigitChar b && bracketDot r) || bracketDot rest
          | [] => false))
  | [] => false

/-- Second alternative: a superscript or reference symbol. -/
def footAltSym (w : List Char) : Bool :=
  match w with
  | c :: _ =>
      c == '*' || c == '†' || c == '‡' || c == '§' ||
      c == '¹' || c == '²' || c == '³' || c == '⁴' || c == '⁵'
  | [] => false

/-- Third alternative: `\(\d\)`. -/
def footAltParen (w : List Char) : Bool :=
  match w with
  | '(' :: d :: ')' :: _ => isDigitChar d
  | _ => false

/-- Model of `FOOTNOTE_PATTERN.match(first)`:
`^\s*(?:\d{1,2}\s*[\)\.]|[*†‡§¹²³⁴⁵]|\(\d\))\s*` as a prefix match. -/
def footStart (l : List Char) : Bool :=
  let w := l.dropWhile isSpaceChar
  footAltNum w || footAltSym w || footAltParen w

/-- Model of `" ".join(cells)` over character lists. -/
def joinSpaced (cells : List (List Char)) : List Char :=
  (cells.intersperse [' ']).flatten

/-- Bullet glyph test: `any("▪" in c or "•" in c or "●" in c for c in row
if c)` (empty strings are falsy and skipped, which cannot change the
outcome of a containment test). -/
def hasBullet (row : List (Option String)) : Bool :=
  row.any fun c =>
    match c with
    | some s => s.data.any fun ch => ch == '▪' || ch == '•' || ch == '●'
    | none => false

/-- Model of `is_footnote_row(row)`: rows with no non-blank cell, rows whose first
non-blank cell starts with a footnote marker, rows whose joined text exceeds
200 characters, and rows containing bullet glyphs. -/
def is_footnote_row (row : List (Option String)) : Bool :=
  match textCells row with
  | [] => true
  | first :: rest =>
      footStart first.data ||
      decide (200 < (joinSpaced ((first :: rest).map String.data)).length) ||
      hasBullet row

/-- The cleaned, label-filled rows handed to the footnote classifier in
`process_table`. -/
def tableRows (t : List (List (Option String))) : List (List (Option String)) :=
  forward_fill_labels (clean_presentation_artifacts t)

/-- Model of `process_table(raw_table, fmt)`: the data rows and the joined texts of
the footnote rows (empty joined texts dropped; `fmt` is accepted and unused,
as in the source). -/
def process_table (t : List (List (Option String))) (fmt : NumFmt) :
    List (List (Option String)) × List String :=
  let rows := tableRows t
  let _ := fmt
  (rows.filter fun r => !is_footnote_row r,
   rows.filterMap fun r =>
     if is_footnote_row r then
       let txt := joinSpaced ((textCells r).map String.data)
       if txt ≠ [] then some (⟨txt⟩ : String) else none
     else none)

/-! ### Word-to-cell assignment (`extract_table_with_words`)

The part under verification is the word loop and the result assembly: the
grid of cell boxes is taken as input (it is built earlier in the same
function from the detected cells).  Coordinates are exact rationals. -/

/-- A positioned word from `page.extract_words`. -/
structure WordBox where
  x0 : ℚ
  top : ℚ
  x1 : ℚ
  bottom : ℚ
  text : String
deriving DecidableEq, Repr

/-- A cell box `(x0, top, x1, bottom)`. -/
structure CellBox where
  x0 : ℚ
  top : ℚ
  x1 : ℚ
  bottom : ℚ
deriving DecidableEq, Repr

/-- A grid entry: the `(row_key, col_key)` pair with its cell box. -/
abbrev GridEntry := (ℚ × ℚ) × CellBox

/-- The containment test of the word loop: the word's geometric center lies
in the box widened by the 2-unit tolerance on every side. -/
def wordInCell (b : CellBox) (w : WordBox) : Bool :=
  let cx := (w.x0 + w.x1) / 2
  let cy := (w.top + w.bottom) / 2
  decide (b.x0 - 2 ≤ cx) && decide (cx ≤ b.x1 + 2) &&
  decide (b.top - 2 ≤ cy) && decide (cy ≤ b.bottom + 2)

/-- Model of `(cx1 - cx0) * (cbottom - ctop)`. -/
def cellArea (b : CellBox) : ℚ :=
  (b.x1 - b.x0) * (b.bottom - b.top)

/-- One step of the best-cell loop: a matching cell is taken when no cell
is held yet or when its area is strictly smaller. -/
def bestStep (w : WordBox) (best : Option GridEntry) (kb : GridEntry) :
    Option GridEntry :=
  if wordInCell kb.2 w then
    match best with
    | none => some kb
    | some b0 => if cellArea kb.2 < cellArea b0.2 then some kb else best
  else best

/-- The best-cell loop over the grid entries. -/
def bestCellAux (w : WordBox) (best : Option GridEntry) :
    List GridEntry → Option GridEntry
  | [] => best
  | kb :: rest => bestCellAux w (bestStep w best kb) rest

/-- The cell a word is assigned to: the first matching grid entry of
strictly minimal area, `none` when no box contains the word's center. -/
def bestCell (grid : List GridEntry) (w : WordBox) : Option GridEntry :=
  bestCellAux w none grid

/-- The `(x0, top, text)` triples accumulated in `cell_texts[key]`, in word
order. -/
def cellTriples (grid : List GridEntry) (words : List WordBox) (key : ℚ × ℚ) :
    List (ℚ × ℚ × String) :=
  words.filterMap fun w =>
    match bestCell grid w with
    | some kb => if kb.1 = key then some (w.x0, w.top, w.text) else none
    | none => none

/-- Sort key order of `sorted(..., key=lambda w: (w[1], w[0]))`: by top,
then by left coordinate. -/
def posLe (a b : ℚ × ℚ × String) : Bool :=
  decide (a.2.1 < b.2.1) || (decide (a.2.1 = b.2.1) && decide (a.1 ≤ b.1))

/-- Stable insertion of a triple into an already sorted list (equal keys
stay before the inserted element, as in Python's stable sort). -/
def insertPos (a : ℚ × ℚ × String) : List (ℚ × ℚ × String) → List (ℚ × ℚ × String)
  | [] => [a]
  | b :: bs => if posLe b a then b :: insertPos a bs else a :: b :: bs

/-- Stable sort by `(top, x0)`. -/
def sortByPos (l : List (ℚ × ℚ × String)) : List (ℚ × ℚ × String) :=
  l.foldl (fun acc a => insertPos a acc) []

/-- Model of `" ".join(...)` of the sorted word texts followed by `.strip()`. -/
def joinCellWords (triples : List (ℚ × ℚ × String)) : String :=
  ⟨pstrip (joinSpaced ((sortByPos triples).map fun tr => tr.2.2.data))⟩

/-- The result assembly of `extract_table_with_words` from the grid on: one
row per row key, one cell per column position, `none` where no word was
assigned. -/
def extractFromGrid (rowKeys colPositions : List ℚ) (grid : List GridEntry)
    (words : List WordBox) : List (List (Option String)) :=
  rowKeys.map fun rk =>
    colPositions.map fun ck =>
      let tr := cellTriples grid words (rk, ck)
      if tr = [] then none else some (joinCellWords tr)

/-! ## Theorems -/

/-! ### Character-class helpers -/

theorem space_cases {c : Char} (h : isSpaceChar c = true) :
    c = ' ' ∨ c = '\t' ∨ c = '\n' ∨ c = '\x0d' ∨ c = '\x0b' ∨ c = '\x0c' ∨
      c = ' ' := by
  have h' := h
  simp only [isSpaceChar, Bool.or_eq_true, beq_iff_eq] at h'
  tauto

theorem charOk_not_space {c : Char} (h : charOk c = true) :
    isSpaceChar c = false := by
  cases hs : isSpaceChar c with
  | false => rfl
  | true =>
      rcases space_cases hs with rfl | rfl | rfl | rfl | rfl | rfl | rfl <;>
        exact absurd h (by decide)

theorem charOk_ne {c x : Char} (h : charOk c = true) (hx : charOk x = false) :
    c ≠ x := by
  intro e
  rw [e, hx] at h
  exact Bool.false_ne_true h

theorem digit_charOk {c : Char} (h : isDigitChar c = true) : charOk c = true := by
  simp [charOk, h]

theorem digit_ne {c x : Char} (h : isDigitChar c = true)
    (hx : isDigitChar x = false) : c ≠ x := by
  intro e
  rw [e, hx] at h
  exact Bool.false_ne_true h

/-! ### Identity lemmas for the normalization stages -/

theorem dropWhile_eq_self_of {p : Char → Bool} {l : List Char}
    (h : ∀ c ∈ l, p c = false) : l.dropWhile p = l := by
  cases l with
  | nil => rfl
  | cons a r => simp [List.dropWhile_cons, h a (List.mem_cons_self a r)]

theorem dropTrailing_eq_self_of {p : Char → Bool} {l : List Char}
    (h : ∀ c ∈ l, p c = false) : dropTrailing p l = l := by
  unfold dropTrailing
  rw [dropWhile_eq_self_of (fun c hc => h c (List.mem_reverse.mp hc)),
    List.reverse_reverse]

theorem pstrip_eq_self_of {l : List Char}
    (h : ∀ c ∈ l, isSpaceChar c = false) : pstrip l = l := by
  unfold pstrip
  rw [dropWhile_eq_self_of h, dropTrailing_eq_self_of h]

theorem map_eq_self_of {f : Char → Char} {l : List Char}
    (h : ∀ c ∈ l, f c = c) : l.map f = l := by
  induction l with
  | nil => rfl
  | cons a r ih =>
      simp only [List.map_cons, h a (List.mem_cons_self a r)]
      rw [ih fun c hc => h c (List.mem_cons_of_mem a hc)]

theorem stripCurrency_cons {c : Char} {r : List Char}
    (hsp : isSpaceChar c = false) (hP : c ≠ 'P') (hM : c ≠ 'M') (hU : c ≠ 'U')
    (hD : c ≠ '$') : stripCurrency (c :: r) = c :: r := by
  unfold stripCurrency afterPs afterTok
  rw [List.dropWhile_cons, if_neg (by simp [hsp])]
  simp [dropLeadingSeg, hP, hM, hU, hD]

theorem parenExtract_cons {c : Char} {r : List Char}
    (hsp : isSpaceChar c = false) (hc : c ≠ '(') :
    parenExtract (c :: r) = none := by
  unfold parenExtract
  rw [List.dropWhile_cons, if_neg (by simp [hsp])]
  split
  · next rest heq =>
      exact absurd (List.head_eq_of_cons_eq heq) hc
  · rfl

/-! ### Shape lemmas for the number normalizer -/

theorem matchNumShape_head {l : List Char} (h : matchNumShape l = true) :
    ∃ c r, l = c :: r ∧ isDigitChar c = true := by
  cases l with
  | nil => simp [matchNumShape] at h
  | cons c r =>
      by_cases hc : isDigitChar c = true
      · exact ⟨c, r, rfl, hc⟩
      · simp [matchNumShape, List.takeWhile_cons,
          Bool.eq_false_iff.mpr hc] at h

theorem matchNumShape_chars {l : List Char} (h : matchNumShape l = true) :
    ∀ c ∈ l, charOk c = true := by
  rw [matchNumShape, Bool.and_eq_true, decide_eq_true_iff] at h
  intro c hc
  rw [← List.takeWhile_append_dropWhile (p := isDigitChar) (l := l)] at hc
  rcases List.mem_append.mp hc with h1 | h2
  · exact digit_charOk (List.mem_takeWhile_imp h1)
  · cases hdrop : l.dropWhile isDigitChar with
    | nil => rw [hdrop] at h2; cases h2
    | cons d t =>
        rw [hdrop] at h2
        have hof := h.2
        rw [hdrop] at hof
        simp only [optFracTail, Bool.and_eq_true, beq_iff_eq] at hof
        rcases List.mem_cons.mp h2 with rfl | hmem
        · rw [hof.1]; decide
        · exact digit_charOk (List.all_eq_true.mp hof.2 c hmem)

theorem looseNumShape_eq (l : List Char) :
    looseNumShape l = matchNumShape (dropMinus l) := rfl

theorem looseNumShape_cases {l : List Char} (h : looseNumShape l = true) :
    (∃ t, l = '-' :: t ∧ matchNumShape t = true) ∨ matchNumShape l = true := by
  rw [looseNumShape_eq] at h
  unfold dropMinus at h
  by_cases hl : l.head? = some '-'
  · rw [if_pos hl] at h
    cases l with
    | nil => cases hl
    | cons c t =>
        left
        refine ⟨t, ?_, h⟩
        have : c = '-' := by simpa using hl
        rw [this]
  · rw [if_neg hl] at h
    exact Or.inr h

theorem dropMinus_of_digit_head {l : List Char} {c : Char} {r : List Char}
    (hl : l = c :: r) (hc : isDigitChar c = true) : dropMinus l = l := by
  subst hl
  unfold dropMinus
  rw [if_neg]
  simp only [List.head?_cons, Option.some.injEq]
  exact digit_ne hc (by decide)

theorem matchNumShape_loose {l : List Char} (h : matchNumShape l = true) :
    looseNumShape l = true := by
  obtain ⟨c, r, hl, hc⟩ := matchNumShape_head h
  rw [looseNumShape_eq, dropMinus_of_digit_head hl hc]
  exact h

theorem matchNumShape_loose_neg {l : List Char} (h : matchNumShape l = true) :
    looseNumShape ('-' :: l) = true := by
  rw [looseNumShape_eq]
  have : dropMinus ('-' :: l) = l := by
    unfold dropMinus
    rw [if_pos] <;> simp
  rw [this]
  exact h

theorem normTail2_shape {neg : Bool} {s4 : List Char} {fmt : NumFmt} {s : String}
    (h : normTail2 neg s4 fmt = some s) : looseNumShape s.data = true := by
  simp only [normTail2] at h
  split at h
  · -- lone-dash branch: the result is "0"
    have hs : s = "0" := (Option.some.injEq _ _).mp h.symm
    subst hs
    decide
  · split at h
    · next hm =>
        have hs := (Option.some.injEq _ _).mp h.symm
        subst hs
        cases neg with
        | true =>
            simpa using matchNumShape_loose_neg hm
        | false =>
            simpa using matchNumShape_loose hm
    · cases h

theorem normTail_shape {neg : Bool} {s3 : List Char} {fmt : NumFmt} {s : String}
    (h : normTail neg s3 fmt = some s) : looseNumShape s.data = true := by
  unfold normTail at h
  split at h
  · exact normTail2_shape h
  · exact normTail2_shape h

theorem normalize_some_shape {raw : Option String} {fmt : NumFmt} {s : String}
    (h : normalize_number_string raw fmt = some s) :
    looseNumShape s.data = true := by
  cases raw with
  | none => cases h
  | some str0 =>
      simp only [normalize_number_string] at h
      split at h
      · cases h
      · split at h
        · exact normTail_shape h
        · exact normTail_shape h

theorem decFinish_of_match {m : List Char} (hm : matchNumShape m = true)
    (sgn : Bool) : ∃ q, decFinish sgn m = some q := by
  rw [matchNumShape, Bool.and_eq_true, decide_eq_true_iff] at hm
  obtain ⟨hds, hof⟩ := hm
  simp only [decFinish]
  cases hdrop : m.dropWhile isDigitChar with
  | nil =>
      exact ⟨_, if_neg hds⟩
  | cons d t =>
      rw [hdrop] at hof
      simp only [optFracTail, Bool.and_eq_true, beq_iff_eq] at hof
      obtain ⟨hd, ht⟩ := hof
      subst hd
      exact ⟨_, if_pos (by simp [ht, hds])⟩

theorem to_decimal_of_shape {s : String} (h : looseNumShape s.data = true) :
    ∃ q, to_decimal (some s) = some q := by
  rcases looseNumShape_cases h with ⟨t, hl, hm⟩ | hm
  · have hchars : ∀ c ∈ s.data, charOk c = true := by
      rw [hl]
      intro c hc
      rcases List.mem_cons.mp hc with rfl | hmem
      · decide
      · exact matchNumShape_chars hm c hmem
    simp only [to_decimal]
    rw [pstrip_eq_self_of (fun c hc => charOk_not_space (hchars c hc)), hl]
    exact decFinish_of_match hm true
  · obtain ⟨c, r, hl, hc⟩ := matchNumShape_head hm
    have hchars := matchNumShape_chars hm
    simp only [to_decimal]
    rw [pstrip_eq_self_of (fun c hc => charOk_not_space (hchars c hc)), hl]
    obtain ⟨q, hq⟩ := decFinish_of_match hm false
    split
    · next t' heq =>
        exact absurd (List.head_eq_of_cons_eq heq)
          (digit_ne hc (by decide))
    · next t' heq =>
        exact absurd (List.head_eq_of_cons_eq heq)
          (digit_ne hc (by decide))
    · exact ⟨q, by rw [← hl]; exact hq⟩

/-! ### C1 — output shape of the normalizer -/

/-- C1 (counterexample): the claim's canonical shape requires fractional
digits after a decimal point, but `normalize_number_string` maps the raw
cell `"12."` (comma-thousands format) to `"12."`, which carries a point
with no fractional digit. -/
theorem c1_counterexample_trailing_point :
    normalize_number_string (some "12.") NumFmt.en = some "12." ∧
    strictNumShape (String.data "12.") = false := by
  constructor
  · rfl
  · decide

/-- C1 (amended): for every raw cell value and either format tag,
`normalize_number_string` returns `none` or a canonical decimal string —
an optional leading `-`, digits, and an optional `.` followed by zero or
more fractional digits, with no separators and no currency symbols; being
total, it raises no exception. -/
theorem c1_normalize_shape_total (raw : Option String) (fmt : NumFmt) :
    normalize_number_string raw fmt = none ∨
    ∃ s, normalize_number_string raw fmt = some s ∧ looseNumShape s.data = true := by
  cases hn : normalize_number_string raw fmt with
  | none => exact Or.inl rfl
  | some s => exact Or.inr ⟨s, rfl, normalize_some_shape hn⟩

/-! ### C3 — parenthetical negatives -/

/-- C3: under the comma-thousands format, the parenthetically wrapped
`"(1,234.50)"` and the minus-prefixed `"-1,234.50"` both normalize to
`"-1234.50"`. -/
theorem c3_parenthetical_equals_minus :
    normalize_number_string (some "(1,234.50)") NumFmt.en = some "-1234.50" ∧
    normalize_number_string (some "-1,234.50") NumFmt.en = some "-1234.50" := by
  constructor
  · rfl
  · rfl

/-! ### C4 — lone dashes -/

/-- C4: contrary to the spec, a lone dash or em-dash is rejected as
digit-free before the zero branch can fire: `normalize_number_string`
returns `none`, not `"0"`, on `"-"` and `"—"` under both format tags (the
`return "0"` statement of the source is unreachable). -/
theorem c4_lone_dash_is_none :
    normalize_number_string (some "-") NumFmt.en = none ∧
    normalize_number_string (some "-") NumFmt.es = none ∧
    normalize_number_string (some "—") NumFmt.en = none ∧
    normalize_number_string (some "—") NumFmt.es = none ∧
    normalize_number_string (some "–") NumFmt.en = none ∧
    normalize_number_string (some "–") NumFmt.es = none := by
  refine ⟨rfl, rfl, rfl, rfl, rfl, rfl⟩

/-! ### C2 — row-total validation -/

theorem norm_isSome_bridge (cell : Option String) (fmt : NumFmt) :
    (to_decimal (normalize_number_string cell fmt)).isSome =
      (normalize_number_string cell fmt).isSome := by
  cases hn : normalize_number_string cell fmt with
  | none => rfl
  | some s =>
      obtain ⟨q, hq⟩ := to_decimal_of_shape (normalize_some_shape hn)
      rw [hq]
      rfl

theorem numsOf_length (row : List (Option String)) (fmt : NumFmt) :
    (numsOf row fmt).length =
      row.countP fun c => (normalize_number_string c fmt).isSome := by
  induction row with
  | nil => rfl
  | cons c r ih =>
      cases hn : normalize_number_string c fmt with
      | none =>
          simp only [numsOf, List.filterMap_cons, hn, to_decimal,
            List.countP_cons] at ih ⊢
          simp [ih]
      | some s =>
          obtain ⟨q, hq⟩ := to_decimal_of_shape (normalize_some_shape hn)
          simp only [numsOf, List.filterMap_cons, hn, hq,
            List.countP_cons] at ih ⊢
          simp [ih]

/-- C2: `validate_row_totals` skips a row with fewer than three cells that
normalize to a number; on qualifying rows it passes exactly when the last
numeric cell equals the exact decimal sum of the preceding numeric cells,
and otherwise reports a mismatch carrying the exact absolute difference;
in particular `["Revenue", "100", "50", "150"]` passes and
`["Revenue", "100", "50", "140"]` mismatches with difference `10`. -/
theorem c2_row_totals :
    (∀ (row : List (Option String)) (fmt : NumFmt),
        (row.countP fun c => (normalize_number_string c fmt).isSome) < 3 →
        validateRow row fmt = RowStatus.skipped) ∧
    (∀ (row : List (Option String)) (fmt : NumFmt),
        3 ≤ (row.countP fun c => (normalize_number_string c fmt).isSome) →
        (validateRow row fmt = RowStatus.passed ↔
          (numsOf row fmt).dropLast.sum = (numsOf row fmt).getLastD 0)) ∧
    (∀ (row : List (Option String)) (fmt : NumFmt),
        3 ≤ (row.countP fun c => (normalize_number_string c fmt).isSome) →
        (numsOf row fmt).dropLast.sum ≠ (numsOf row fmt).getLastD 0 →
        validateRow row fmt = RowStatus.mismatch
          |(numsOf row fmt).dropLast.sum - (numsOf row fmt).getLastD 0|) ∧
    validateRow [some "Revenue", some "100", some "50", some "150"] NumFmt.en =
      RowStatus.passed ∧
    validateRow [some "Revenue", some "100", some "50", some "140"] NumFmt.en =
      RowStatus.mismatch 10 := by
  refine ⟨?_, ?_, ?_, ?_, ?_⟩
  · intro row fmt h
    simp only [validateRow]
    rw [if_pos (by rw [numsOf_length]; exact h)]
  · intro row fmt h
    have hL := List.getLastD_eq_getLast? (0 : ℚ) (numsOf row fmt)
    simp only [validateRow]
    rw [if_neg (by rw [numsOf_length]; omega), hL]
    by_cases he : (numsOf row fmt).dropLast.sum = (numsOf row fmt).getLast?.getD 0
    · rw [if_pos he]
      simp [he]
    · rw [if_neg he]
      simp [he]
  · intro row fmt h hne
    simp only [validateRow]
    rw [if_neg (by rw [numsOf_length]; omega), if_neg hne]
  · have hn : numsOf [some "Revenue", some "100", some "50", some "150"]
        NumFmt.en = [100, 50, 150] := rfl
    simp only [validateRow, hn]
    norm_num
  · have hn : numsOf [some "Revenue", some "100", some "50", some "140"]
        NumFmt.en = [100, 50, 140] := rfl
    simp only [validateRow, hn]
    norm_num

/-- Witness for C2 at concrete rows: a two-cell row is skipped, and
`["9", "8", "7"]` mismatches with difference `10`. -/
theorem c2_row_totals_witness :
    validateRow [some "1", some "2"] NumFmt.en = RowStatus.skipped ∧
    validateRow [some "9", some "8", some "7"] NumFmt.en =
      RowStatus.mismatch 10 := by
  constructor
  · exact c2_row_totals.1 [some "1", some "2"] NumFmt.en (by decide)
  · have h := c2_row_totals.2.2.1 [some "9", some "8", some "7"] NumFmt.en
      (by decide)
      (by rw [show numsOf [some "9", some "8", some "7"] NumFmt.en = [9, 8, 7]
            from rfl]
          norm_num)
    rw [h]
    congr 1
    rw [show numsOf [some "9", some "8", some "7"] NumFmt.en = [9, 8, 7]
      from rfl]
    norm_num

/-! ### C5 — number-format detection -/

/-- C5: the detector returns comma-thousands on `["1,234.56", "2,500.00"]`,
period-thousands on `["1.234,56", "2.500,00"]`, and comma-thousands
whenever the two evidence counts tie — the empty pool included. -/
theorem c5_format_detection :
    detect_number_format [some "1,234.56", some "2,500.00"] = NumFmt.en ∧
    detect_number_format [some "1.234,56", some "2.500,00"] = NumFmt.es ∧
    (∀ cells, esEvidence cells = enEvidence cells →
      detect_number_format cells = NumFmt.en) ∧
    detect_number_format [] = NumFmt.en := by
  refine ⟨by decide, by decide, ?_, by decide⟩
  intro cells h
  simp only [detect_number_format]
  rw [if_neg (by rw [h]; exact lt_irrefl _)]

/-- Witness for C5: a pool with no numeric evidence ties at zero and yields
comma-thousands. -/
theorem c5_format_detection_witness :
    detect_number_format [some "n/a"] = NumFmt.en :=
  c5_format_detection.2.2.1 [some "n/a"] (by decide)

/-! ### C6 — artifact-column stripping -/

/-- C6 (counterexample): a leading column whose non-empty cells are exactly
70% RGB artifacts (7 of 10) meets the claim's "at least 70%" bar but is not
stripped — the source requires strictly more than 70%. -/
theorem c6_counterexample_exact_seventy :
    detect_artifact_columns
        (List.replicate 7 [some "1"] ++ List.replicate 3 [some "x"]) = 0 ∧
    7 * (nonEmptyCol
          (List.replicate 7 [some "1"] ++ List.replicate 3 [some "x"]) 0).length ≤
      10 * (nonEmptyCol
          (List.replicate 7 [some "1"] ++ List.replicate 3 [some "x"]) 0).countP
            is_rgb_artifact := by
  constructor
  · decide
  · decide

theorem stripLoop_eq_takeWhile (t : List (List (Option String))) :
    ∀ idxs : List ℕ, stripLoop t idxs = (idxs.takeWhile (stripColOk t)).length := by
  intro idxs
  induction idxs with
  | nil => rfl
  | cons i r ih =>
      by_cases hc : stripColOk t i = true
      · simp [stripLoop, List.takeWhile_cons, hc, ih, Nat.add_comm]
      · simp [stripLoop, List.takeWhile_cons, hc]

/-- C6 (amended): the number of stripped leading columns is the length of
the maximal leading run of columns that either have no non-empty cells or
whose non-empty cells are strictly more than 70% RGB artifacts (scanning
stops at the first failing column); a table whose first two columns hold
only 0–255 integer triples and whose third holds labels strips exactly the
first two. -/
theorem c6_amended_strip_run :
    (∀ t, detect_artifact_columns t =
      ((List.range (maxCols t)).takeWhile (stripColOk t)).length) ∧
    detect_artifact_columns
      [[some "128, 64, 32", some "255, 255, 255", some "Revenue"],
       [some "0, 0, 0", some "12 34 56", some "Cost"],
       [some "10,20,30", some "1, 2, 3", some "Total"]] = 2 := by
  constructor
  · intro t
    by_cases ht : t = []
    · subst ht; rfl
    · simp only [detect_artifact_columns]
      rw [if_neg ht]
      exact stripLoop_eq_takeWhile t _
  · decide

/-! ### C9 — fully empty rows and the footnote classifier -/

/-- C9 (counterexample): the classifier marks a fully empty row (no
non-blank cell) as a footnote row: `is_footnote_row` returns `true`, not
`false`, on `[None, " "]`. -/
theorem c9_counterexample_empty_row :
    is_footnote_row [none, some " "] = true := by decide

theorem clean_rows_nonblank' {t : List (List (Option String))}
    {row : List (Option String)}
    (hr : row ∈ clean_presentation_artifacts t) : rowNonBlank row = true := by
  simp only [clean_presentation_artifacts] at hr
  split at hr
  · next h => rw [h] at hr; cases hr
  · exact List.of_mem_filter hr

theorem fflAux_nonblank :
    ∀ (l : List (List (Option String))) (lab : Option String),
      (∀ v, lab = some v → pstrip v.data ≠ []) →
      (∀ r ∈ l, rowNonBlank r = true) →
      ∀ r ∈ fflAux lab l, rowNonBlank r = true := by
  intro l
  induction l with
  | nil =>
      intro lab _ _ r hr
      cases hr
  | cons row rest ih =>
      intro lab hlab hall r hr
      have hrow : rowNonBlank row = true := hall row (List.mem_cons_self row rest)
      have hrest : ∀ r' ∈ rest, rowNonBlank r' = true :=
        fun r' hr' => hall r' (List.mem_cons_of_mem row hr')
      cases row with
      | nil => exact absurd hrow (by decide)
      | cons c0 rtail =>
          cases c0 with
          | some s =>
              by_cases hs : pstrip s.data ≠ []
              · rw [show fflAux lab ((some s :: rtail) :: rest) =
                    (some s :: rtail) :: fflAux (some s) rest by
                  simp [fflAux, hs]] at hr
                rcases List.mem_cons.mp hr with rfl | hmem
                · exact hrow
                · exact ih (some s)
                    (fun v hv => by injection hv with hv'; rw [← hv']; exact hs)
                    hrest r hmem
              · cases lab with
                | some v =>
                    rw [show fflAux (some v) ((some s :: rtail) :: rest) =
                        ((some v) :: rtail) :: fflAux (some v) rest by
                      simp [fflAux, hs]] at hr
                    rcases List.mem_cons.mp hr with rfl | hmem
                    · have hv := hlab v rfl
                      simp [rowNonBlank, cellNonBlank, hv]
                    · exact ih (some v) hlab hrest r hmem
                | none =>
                    rw [show fflAux none ((some s :: rtail) :: rest) =
                        (some s :: rtail) :: fflAux none rest by
                      simp [fflAux, hs]] at hr
                    rcases List.mem_cons.mp hr with rfl | hmem
                    · exact hrow
                    · exact ih none (fun v hv => by cases hv) hrest r hmem
          | none =>
              cases lab with
              | some v =>
                  rw [show fflAux (some v) ((none :: rtail) :: rest) =
                      ((some v) :: rtail) :: fflAux (some v) rest by
                    simp [fflAux]] at hr
                  rcases List.mem_cons.mp hr with rfl | hmem
                  · have hv := hlab v rfl
                    simp [rowNonBlank, cellNonBlank, hv]
                  · exact ih (some v) hlab hrest r hmem
              | none =>
                  rw [show fflAux none ((none :: rtail) :: rest) =
                      (none :: rtail) :: fflAux none rest by
                    simp [fflAux]] at hr
                  rcases List.mem_cons.mp hr with rfl | hmem
                  · exact hrow
                  · exact ih none (fun v hv => by cases hv) hrest r hmem

/-- C9 (amended): `is_footnote_row` classifies a fully empty row as a
footnote row; however no such row reaches it inside `process_table`, since
empty rows are dropped by `clean_presentation_artifacts` and the label
forward-fill preserves non-blankness — every row handed to the classifier
has a non-blank cell. -/
theorem c9_amended_empty_rows :
    is_footnote_row [none, some " "] = true ∧
    ∀ (t : List (List (Option String))), ∀ r ∈ tableRows t,
      rowNonBlank r = true := by
  constructor
  · decide
  · intro t r hr
    simp only [tableRows, forward_fill_labels] at hr
    exact fflAux_nonblank _ none (fun v hv => by cases hv)
      (fun r' hr' => clean_rows_nonblank' hr') r hr

/-- Witness for C9: the single data row of a one-row table reaches the
classifier and is non-blank. -/
theorem c9_amended_witness : rowNonBlank [some "Assets"] = true :=
  c9_amended_empty_rows.2 [[some "Assets"]] [some "Assets"] (by decide)

/-! ### C10 — breadth of the RGB-artifact guard -/

theorem tokensAux_nil_of_seps :
    ∀ seps : List Char, seps.all isSepChar = true → tokensAux [] seps = [] := by
  intro seps
  induction seps with
  | nil => intro _; rfl
  | cons c cs ih =>
      intro h
      rw [List.all_cons, Bool.and_eq_true] at h
      simp [tokensAux, h.1, ih h.2]

theorem tokensAux_seps (cur : List Char) :
    ∀ seps : List Char, seps.all isSepChar = true →
      tokensAux cur seps = if cur = [] then [] else [cur.reverse] := by
  intro seps
  induction seps with
  | nil => intro _; rfl
  | cons c cs ih =>
      intro h
      rw [List.all_cons, Bool.and_eq_true] at h
      by_cases hcur : cur = []
      · simp [tokensAux, h.1, hcur, tokensAux_nil_of_seps cs h.2]
      · simp [tokensAux, h.1, hcur, tokensAux_nil_of_seps cs h.2]

theorem tokensAux_append_seps :
    ∀ (l cur seps : List Char), seps.all isSepChar = true →
      tokensAux cur (l ++ seps) = tokensAux cur l := by
  intro l
  induction l with
  | nil =>
      intro cur seps h
      rw [List.nil_append, tokensAux_seps cur seps h]
      cases cur with
      | nil => rfl
      | cons a b => rfl
  | cons c cs ih =>
      intro cur seps h
      simp only [List.cons_append]
      by_cases hc : isSepChar c = true
      · by_cases hcur : cur = []
        · simp [tokensAux, hc, hcur, ih [] seps h]
        · simp [tokensAux, hc, hcur, ih [] seps h]
      · simp [tokensAux, hc, ih (c :: cur) seps h]

theorem tokensOf_cons_sep {c : Char} (hc : isSepChar c = true) (l : List Char) :
    tokensOf (c :: l) = tokensOf l := by
  simp [tokensOf, tokensAux, hc]

theorem tokensOf_dropWhile_sub (p : Char → Bool)
    (hp : ∀ c, p c = true → isSepChar c = true) :
    ∀ l, tokensOf (l.dropWhile p) = tokensOf l := by
  intro l
  induction l with
  | nil => rfl
  | cons c cs ih =>
      by_cases hc : p c = true
      · rw [List.dropWhile_cons, if_pos hc, ih, tokensOf_cons_sep (hp c hc)]
      · rw [List.dropWhile_cons, if_neg (by simp [hc])]

theorem dropTrailing_decomp (p : Char → Bool) (l : List Char) :
    ∃ s, l = dropTrailing p l ++ s ∧ s.all p = true := by
  refine ⟨(l.reverse.takeWhile p).reverse, ?_, ?_⟩
  · conv_lhs =>
      rw [← List.reverse_reverse l,
        ← List.takeWhile_append_dropWhile (p := p) (l := l.reverse)]
    rw [List.reverse_append]
    rfl
  · rw [List.all_eq_true]
    intro c hc
    exact List.mem_takeWhile_imp (List.mem_reverse.mp hc)

theorem tokensOf_dropTrailing_sub (p : Char → Bool)
    (hp : ∀ c, p c = true → isSepChar c = true) (l : List Char) :
    tokensOf (dropTrailing p l) = tokensOf l := by
  obtain ⟨s, hdec, hall⟩ := dropTrailing_decomp p l
  have hs : s.all isSepChar = true := by
    rw [List.all_eq_true] at hall ⊢
    exact fun c hc => hp c (hall c hc)
  conv_rhs => rw [hdec]
  exact (tokensAux_append_seps _ [] s hs).symm

theorem tokensOf_trim (l : List Char) :
    tokensOf (pstrip (dropTrailing (fun c => c == ',') (pstrip l))) =
      tokensOf l := by
  have hsp : ∀ c, isSpaceChar c = true → isSepChar c = true :=
    fun c h => by simp [isSepChar, h]
  have hcm : ∀ c : Char, (c == ',') = true → isSepChar c = true :=
    fun c h => by simp [isSepChar, h]
  simp only [pstrip]
  rw [tokensOf_dropTrailing_sub _ hsp, tokensOf_dropWhile_sub _ hsp,
    tokensOf_dropTrailing_sub _ hcm, tokensOf_dropTrailing_sub _ hsp,
    tokensOf_dropWhile_sub _ hsp]

/-- C10: `is_rgb_artifact` accepts `None`, blank strings, and any cell all
of whose comma/whitespace-separated tokens are ASCII digit strings of value
at most 255 — a lone `"42"` included, not just three-part triples; hence a
leading column of lone small integers, or an entirely blank leading column,
counts toward stripping. -/
theorem c10_rgb_guard_breadth :
    is_rgb_artifact none = true ∧
    is_rgb_artifact (some "") = true ∧
    is_rgb_artifact (some "42") = true ∧
    (∀ s : String, (tokensOf s.data).all smallTok = true →
      is_rgb_artifact (some s) = true) ∧
    detect_artifact_columns [[some "7", some "Revenue"],
      [some "250", some "Cost"]] = 1 ∧
    detect_artifact_columns [[none, some "Revenue"],
      [some " ", some "Cost"]] = 1 := by
  refine ⟨by decide, by decide, by decide, ?_, by decide, by decide⟩
  intro s h
  simp only [is_rgb_artifact]
  split
  · rfl
  · rw [tokensOf_trim]
    exact h

/-- Witness for C10: an RGB triple cell satisfies the token condition and
is accepted. -/
theorem c10_rgb_guard_witness : is_rgb_artifact (some "128, 64, 32") = true :=
  c10_rgb_guard_breadth.2.2.2.1 "128, 64, 32" (by decide)

/-! ### C8 — word-to-cell assignment -/

theorem bestCellAux_mem_match (w : WordBox) :
    ∀ (l : List GridEntry) (best : Option GridEntry) (kb : GridEntry),
      bestCellAux w best l = some kb →
      best = some kb ∨ (kb ∈ l ∧ wordInCell kb.2 w = true) := by
  intro l
  induction l with
  | nil => intro best kb h; exact Or.inl h
  | cons e r ih =>
      intro best kb h
      rw [bestCellAux] at h
      rcases ih (bestStep w best e) kb h with h1 | h2
      · simp only [bestStep] at h1
        by_cases hm : wordInCell e.2 w = true
        · rw [if_pos hm] at h1
          cases best with
          | none =>
              injection h1 with h1'
              subst h1'
              exact Or.inr ⟨List.mem_cons_self e r, hm⟩
          | some b0 =>
              dsimp only at h1
              by_cases ha : cellArea e.2 < cellArea b0.2
              · rw [if_pos ha] at h1
                injection h1 with h1'
                subst h1'
                exact Or.inr ⟨List.mem_cons_self e r, hm⟩
              · rw [if_neg ha] at h1
                exact Or.inl h1
        · rw [if_neg (by simp [hm])] at h1
          exact Or.inl h1
      · exact Or.inr ⟨List.mem_cons_of_mem e h2.1, h2.2⟩

theorem bestCellAux_minimal (w : WordBox) :
    ∀ (l : List GridEntry) (best : Option GridEntry) (kb : GridEntry),
      bestCellAux w best l = some kb →
      (∀ b0, best = some b0 → cellArea kb.2 ≤ cellArea b0.2) ∧
      (∀ kb' ∈ l, wordInCell kb'.2 w = true →
        cellArea kb.2 ≤ cellArea kb'.2) := by
  intro l
  induction l with
  | nil =>
      intro best kb h
      rw [bestCellAux] at h
      constructor
      · intro b0 hb
        rw [h] at hb
        injection hb with e
        rw [e]
      · intro kb' hk
        cases hk
  | cons e r ih =>
      intro best kb h
      rw [bestCellAux] at h
      obtain ⟨ihb, ihr⟩ := ih (bestStep w best e) kb h
      constructor
      · intro b0 hb
        by_cases hm : wordInCell e.2 w = true
        · by_cases ha : cellArea e.2 < cellArea b0.2
          · exact le_trans (ihb e (by simp [bestStep, hb, hm, ha]))
              (le_of_lt ha)
          · exact ihb b0 (by simp [bestStep, hb, hm, ha])
        · exact ihb b0 (by simp [bestStep, hb, hm])
      · intro kb' hk hm'
        rcases List.mem_cons.mp hk with rfl | hmem
        · cases best with
          | none => exact ihb kb' (by simp [bestStep, hm'])
          | some b0 =>
              by_cases ha : cellArea kb'.2 < cellArea b0.2
              · exact ihb kb' (by simp [bestStep, hm', ha])
              · exact le_trans (ihb b0 (by simp [bestStep, hm', ha]))
                  (not_lt.mp ha)
        · exact ihr kb' hmem hm'

theorem bestCellAux_isSome_of (w : WordBox) :
    ∀ (l : List GridEntry) (best : Option GridEntry), best.isSome = true →
      (bestCellAux w best l).isSome = true := by
  intro l
  induction l with
  | nil => intro best h; exact h
  | cons e r ih =>
      intro best h
      rw [bestCellAux]
      apply ih
      simp only [bestStep]
      by_cases hm : wordInCell e.2 w = true
      · rw [if_pos hm]
        cases best with
        | none => rfl
        | some b0 =>
            dsimp only
            by_cases ha : cellArea e.2 < cellArea b0.2
            · rw [if_pos ha]; rfl
            · rw [if_neg ha]; rfl
      · rw [if_neg (by simp [hm])]
        exact h

theorem bestCellAux_isSome_mem (w : WordBox) :
    ∀ (l : List GridEntry) (best : Option GridEntry) (kb' : GridEntry),
      kb' ∈ l → wordInCell kb'.2 w = true →
      (bestCellAux w best l).isSome = true := by
  intro l
  induction l with
  | nil => intro best kb' hk; cases hk
  | cons e r ih =>
      intro best kb' hk hm
      rw [bestCellAux]
      rcases List.mem_cons.mp hk with rfl | hmem
      · apply bestCellAux_isSome_of
        simp only [bestStep]
        rw [if_pos hm]
        cases best with
        | none => rfl
        | some b0 =>
            dsimp only
            by_cases ha : cellArea kb'.2 < cellArea b0.2
            · rw [if_pos ha]; rfl
            · rw [if_neg ha]; rfl
      · exact ih (bestStep w best e) kb' hmem hm

/-- C8: a word whose geometric center lies within the 2-unit tolerance of
at least one grid cell box is assigned (`bestCell` is `some`), the assigned
cell matches and has minimal area among all matching cells, and the words
of one cell are joined in (top, then left) order with single spaces: two
words inside a lone cell, listed lower-word first, come out as one string
in top-then-left order. -/
theorem c8_word_assignment :
    (∀ (grid : List GridEntry) (w : WordBox) (kb : GridEntry),
        bestCell grid w = some kb →
        kb ∈ grid ∧ wordInCell kb.2 w = true ∧
        ∀ kb' ∈ grid, wordInCell kb'.2 w = true →
          cellArea kb.2 ≤ cellArea kb'.2) ∧
    (∀ (grid : List GridEntry) (w : WordBox) (kb' : GridEntry),
        kb' ∈ grid → wordInCell kb'.2 w = true →
        (bestCell grid w).isSome = true) ∧
    extractFromGrid [10] [5] [((10, 5), ⟨5, 10, 80, 30⟩)]
      [⟨30, 20, 50, 28, "assets"⟩, ⟨12, 11, 28, 19, "Total"⟩] =
      [[some "Total assets"]] := by
  refine ⟨?_, ?_, ?_⟩
  · intro grid w kb h
    have hmem := bestCellAux_mem_match w grid none kb h
    have hmin := bestCellAux_minimal w grid none kb h
    rcases hmem with h1 | h2
    · cases h1
    · exact ⟨h2.1, h2.2, hmin.2⟩
  · intro grid w kb' hk hm
    exact bestCellAux_isSome_mem w grid none kb' hk hm
  · have hw1 : wordInCell ⟨5, 10, 80, 30⟩ ⟨30, 20, 50, 28, "assets"⟩ = true := by
      simp only [wordInCell, Bool.and_eq_true, decide_eq_true_eq]
      norm_num
    have hw2 : wordInCell ⟨5, 10, 80, 30⟩ ⟨12, 11, 28, 19, "Total"⟩ = true := by
      simp only [wordInCell, Bool.and_eq_true, decide_eq_true_eq]
      norm_num
    have hb1 : bestCell [((10, 5), ⟨5, 10, 80, 30⟩)] ⟨30, 20, 50, 28, "assets"⟩ =
        some ((10, 5), ⟨5, 10, 80, 30⟩) := by
      simp [bestCell, bestCellAux, bestStep, hw1]
    have hb2 : bestCell [((10, 5), ⟨5, 10, 80, 30⟩)] ⟨12, 11, 28, 19, "Total"⟩ =
        some ((10, 5), ⟨5, 10, 80, 30⟩) := by
      simp [bestCell, bestCellAux, bestStep, hw2]
    have htr : cellTriples [((10, 5), ⟨5, 10, 80, 30⟩)]
        [⟨30, 20, 50, 28, "assets"⟩, ⟨12, 11, 28, 19, "Total"⟩]
        ((10 : ℚ), (5 : ℚ)) = [(30, 20, "assets"), (12, 11, "Total")] := by
      simp [cellTriples, hb1, hb2]
    have hps : posLe (30, 20, "assets") (12, 11, "Total") = false := by
      simp only [posLe]
      rw [decide_eq_false (by norm_num : ¬(20 : ℚ) < 11),
        decide_eq_false (by norm_num : ¬(20 : ℚ) = 11)]
      simp
    have hsort : sortByPos [(30, 20, "assets"), (12, 11, "Total")] =
        [(12, 11, "Total"), (30, 20, "assets")] := by
      simp [sortByPos, insertPos, hps]
    simp only [extractFromGrid, List.map_cons, List.map_nil, htr]
    rw [if_neg (by simp)]
    rw [show joinCellWords [(30, 20, "assets"), (12, 11, "Total")] =
      "Total assets" by rw [joinCellWords, hsort]; rfl]

/-- Witness for C8 on a concrete one-cell grid and word: the word is
matched, assigned, and the assignment is area-minimal. -/
theorem c8_word_assignment_witness :
    cellArea (⟨5, 10, 80, 30⟩ : CellBox) ≤ cellArea (⟨5, 10, 80, 30⟩ : CellBox) ∧
    (bestCell [((10, 5), ⟨5, 10, 80, 30⟩)] ⟨12, 11, 28, 19, "Total"⟩).isSome =
      true := by
  have hw : wordInCell ⟨5, 10, 80, 30⟩ ⟨12, 11, 28, 19, "Total"⟩ = true := by
    simp only [wordInCell, Bool.and_eq_true, decide_eq_true_eq]
    norm_num
  have hb : bestCell [((10, 5), ⟨5, 10, 80, 30⟩)] ⟨12, 11, 28, 19, "Total"⟩ =
      some ((10, 5), ⟨5, 10, 80, 30⟩) := by
    simp [bestCell, bestCellAux, bestStep, hw]
  constructor
  · exact (c8_word_assignment.1 [((10, 5), ⟨5, 10, 80, 30⟩)]
      ⟨12, 11, 28, 19, "Total"⟩ ((10, 5), ⟨5, 10, 80, 30⟩) hb).2.2
      ((10, 5), ⟨5, 10, 80, 30⟩) (List.mem_singleton.mpr rfl) hw
  · exact c8_word_assignment.2.1 [((10, 5), ⟨5, 10, 80, 30⟩)]
      ⟨12, 11, 28, 19, "Total"⟩ ((10, 5), ⟨5, 10, 80, 30⟩)
      (List.mem_singleton.mpr rfl) hw

/-! ### C7 — idempotence of the normalizer -/

theorem normTail2_id {m : List Char} (neg : Bool) (fmt : NumFmt)
    (hm : matchNumShape m = true)
    (hdot : fmt = NumFmt.es → ∀ c ∈ m, c ≠ '.') :
    normTail2 neg m fmt = some ⟨if neg then '-' :: m else m⟩ := by
  have hchars := matchNumShape_chars hm
  obtain ⟨c0, r0, hm0, hd0⟩ := matchNumShape_head hm
  have hfil : (m.filter fun c => c != ' ' && c != ' ') = m := by
    rw [List.filter_eq_self]
    intro a ha
    have h1 : a ≠ ' ' := charOk_ne (hchars a ha) (by decide)
    have h2 : a ≠ ' ' := charOk_ne (hchars a ha) (by decide)
    simp [h1, h2]
  simp only [normTail2, hfil]
  rw [if_neg ?hdash]
  case hdash =>
    intro hcond
    rw [hm0] at hcond
    simp only [Bool.or_eq_true, decide_eq_true_eq] at hcond
    rcases hcond with (h | h) | h <;>
      · have h1 := List.head_eq_of_cons_eq h
        exact absurd h1 (digit_ne hd0 (by decide))
  cases fmt with
  | en =>
      have hfc : (m.filter fun c => c != ',') = m := by
        rw [List.filter_eq_self]
        intro a ha
        simp [charOk_ne (hchars a ha) (by decide : charOk ',' = false)]
      dsimp only
      rw [hfc, if_pos hm]
  | es =>
      have hne := hdot rfl
      have hfd : (m.filter fun c => c != '.') = m := by
        rw [List.filter_eq_self]
        intro a ha
        simp [hne a ha]
      have hmap : (m.map fun c => if c = ',' then '.' else c) = m :=
        map_eq_self_of fun c hc =>
          if_neg (charOk_ne (hchars c hc) (by decide : charOk ',' = false))
      dsimp only
      rw [hfd, hmap, if_pos hm]


theorem normalize_id_of_shaped (pre m : List Char) (fmt : NumFmt)
    (hpre : pre = [] ∨ pre = ['-']) (hm : matchNumShape m = true)
    (hdot : fmt = NumFmt.es → ∀ c ∈ m, c ≠ '.') :
    normalize_number_string (some ⟨pre ++ m⟩) fmt = some ⟨pre ++ m⟩ := by
  obtain ⟨c0, r0, hm0, hd0⟩ := matchNumShape_head hm
  have hcharsM := matchNumShape_chars hm
  have hchars : ∀ c ∈ pre ++ m, charOk c = true := by
    intro c hc
    rcases List.mem_append.mp hc with h1 | h2
    · rcases hpre with rfl | rfl
      · cases h1
      · rw [List.mem_singleton.mp h1]; decide
    · exact hcharsM c h2
  have hnsp : ∀ c ∈ pre ++ m, isSpaceChar c = false :=
    fun c hc => charOk_not_space (hchars c hc)
  have hdata : (⟨pre ++ m⟩ : String).data = pre ++ m := rfl
  simp only [normalize_number_string, hdata]
  rw [pstrip_eq_self_of hnsp]
  rw [if_neg ?hguard]
  case hguard =>
    have hany : (pre ++ m).any isDigitChar = true := by
      rw [List.any_eq_true]
      exact ⟨c0, List.mem_append_right pre (hm0 ▸ List.mem_cons_self c0 r0), hd0⟩
    have hne : pre ++ m ≠ [] := by
      intro e
      rw [List.append_eq_nil] at e
      rw [e.2] at hm0
      cases hm0
    simp [hany, hne]
  have hsc : stripCurrency (pre ++ m) = pre ++ m := by
    rcases hpre with rfl | rfl
    · rw [List.nil_append, hm0]
      exact stripCurrency_cons (charOk_not_space (digit_charOk hd0))
        (charOk_ne (digit_charOk hd0) (by decide))
        (charOk_ne (digit_charOk hd0) (by decide))
        (charOk_ne (digit_charOk hd0) (by decide))
        (charOk_ne (digit_charOk hd0) (by decide))
    · exact stripCurrency_cons (by decide) (by decide) (by decide) (by decide)
        (by decide)
  rw [hsc, pstrip_eq_self_of hnsp]
  have hpe : parenExtract (pre ++ m) = none := by
    rcases hpre with rfl | rfl
    · rw [List.nil_append, hm0]
      exact parenExtract_cons (charOk_not_space (digit_charOk hd0))
        (charOk_ne (digit_charOk hd0) (by decide))
    · exact parenExtract_cons (by decide) (by decide)
  rw [hpe]
  have hdr : dashReplace (pre ++ m) = pre ++ m :=
    map_eq_self_of fun c hc => by
      have h1 : c ≠ '−' := charOk_ne (hchars c hc) (by decide)
      have h2 : c ≠ '–' := charOk_ne (hchars c hc) (by decide)
      simp [h1, h2]
  dsimp only
  rw [hdr]
  rcases hpre with rfl | rfl
  · rw [List.nil_append, hm0]
    have hc0 : c0 ≠ '-' := digit_ne hd0 (by decide)
    unfold normTail
    split
    · next t heq => exact absurd (List.head_eq_of_cons_eq heq) hc0
    · rw [← hm0]
      have h := normTail2_id false fmt hm hdot
      simpa using h
  · show normTail false ('-' :: m) fmt = some ⟨'-' :: m⟩
    rw [show normTail false ('-' :: m) fmt = normTail2 true (pstrip m) fmt
      from rfl]
    rw [pstrip_eq_self_of fun c hc => charOk_not_space (hcharsM c hc)]
    have h := normTail2_id true fmt hm hdot
    simpa using h


/-- C7 (counterexample): under the period-thousands tag, the
already-normalized string `"1.5"` is rewritten to `"15"` — its point is
treated as a thousands separator — so idempotence fails for the `es` tag. -/
theorem c7_counterexample_es_point :
    normalize_number_string (some "1.5") NumFmt.es = some "15" ∧
    looseNumShape (String.data "1.5") = true ∧ ("15" : String) ≠ "1.5" :=
  ⟨rfl, by decide, by decide⟩

/-- C7 (amended): an already-normalized number string (optional leading
`-`, digits, optional decimal point; no currency, no separators) passes
through the normalizer unchanged under the comma-thousands tag; under the
period-thousands tag the same holds for strings without a decimal point. -/
theorem c7_normalizer_idempotent (s : String) (h : looseNumShape s.data = true) :
    normalize_number_string (some s) NumFmt.en = some s ∧
    ('.' ∉ s.data → normalize_number_string (some s) NumFmt.es = some s) := by
  obtain ⟨d⟩ := s
  rcases looseNumShape_cases h with ⟨t, hl, hm⟩ | hm
  · have hd : d = '-' :: t := hl
    subst hd
    constructor
    · exact normalize_id_of_shaped ['-'] t NumFmt.en (Or.inr rfl) hm
        (by intro hfe; cases hfe)
    · intro hdot
      refine normalize_id_of_shaped ['-'] t NumFmt.es (Or.inr rfl) hm ?_
      intro _ c hc e
      subst e
      exact hdot (List.mem_cons_of_mem _ hc)
  · constructor
    · exact normalize_id_of_shaped [] d NumFmt.en (Or.inl rfl) hm
        (by intro hfe; cases hfe)
    · intro hdot
      refine normalize_id_of_shaped [] d NumFmt.es (Or.inl rfl) hm ?_
      intro _ c hc e
      exact hdot (e ▸ hc)

/-- Witness for C7 at concrete normalized strings. -/
theorem c7_normalizer_idempotent_witness :
    looseNumShape (String.data "-1234.50") = true ∧
    normalize_number_string (some "-1234.50") NumFmt.en = some "-1234.50" ∧
    normalize_number_string (some "123") NumFmt.es = some "123" :=
  ⟨by decide, (c7_normalizer_idempotent "-1234.50" (by decide)).1,
   (c7_normalizer_idempotent "123" (by decide)).2 (by decide)⟩

end FinExtract
